import Mathlib

/-!
Verification of the plan lifecycle engine in `Docs/Plans/plan-update.py`.

The Python script mutates a JSON plan document.  We shallowly embed the
fields the engine reads and writes:

* statuses are the raw strings of `VALID_STATUSES`;
* a JSON phase dictionary becomes the `Phase` structure; fields the engine
  reads with `dict.get` defaults (`status`, `completion_percentage`) are
  stored with the default already applied, which is observationally
  equivalent for every access in the script;
* fallible code paths (`self.error(...)` / uncaught exceptions, which call
  `sys.exit`) become `Except PyErr`;
* Python `float` values are IEEE-754 binary64; we model them exactly as
  dyadic rationals `m * 2^e` (`Dy`) with correctly rounded (round to
  nearest, ties to even) division, multiplication and addition in the
  normal range;
* filesystem effects of `main` (backup, atomic save, archive move) become
  a `Disk` record threaded through `runMain`; serialization is modelled as
  faithful, so two structurally different documents have different bytes.
-/

namespace PlanUpdate

/-- `VALID_STATUSES` from the script. -/
def VALID_STATUSES : List String := ["not_started", "in_progress", "completed", "blocked"]

/-- `STATUS_TRANSITIONS` from the script; `dict.get(current, [])` yields `[]`
for a status outside the table. -/
def STATUS_TRANSITIONS (s : String) : List String :=
  if s = "not_started" then ["in_progress", "blocked", "completed"]
  else if s = "in_progress" then ["completed", "blocked"]
  else if s = "blocked" then ["in_progress", "completed"]
  else if s = "completed" then []
  else []

/-- A dependency entry of a phase: JSON integers and strings, the two forms
`_check_dependencies_satisfied` is written for. -/
inductive Dep where
  | int (n : Int)
  | str (s : String)
  deriving DecidableEq, Repr

/-- Exact value of an IEEE-754 binary64 float: `m * 2^e` (normal range;
overflow and subnormals do not arise for the plan quantities involved). -/
structure Dy where
  m : Int
  e : Int
  deriving DecidableEq, Repr

/-- The `actual_effort` field of a phase as seen through Python `float()`:
`val d` is a JSON number or a numeric string parsing to the double `d`;
`bad` is a string `float()` rejects with `ValueError`. -/
inductive EffortVal where
  | val (d : Dy)
  | bad
  deriving DecidableEq, Repr

/-- A step dictionary: `number` and `status` as the script reads them. -/
structure Step where
  number : Int
  status : String
  deriving DecidableEq, Repr

/-- A phase dictionary, restricted to the fields the engine reads or
writes.  A missing `status` is stored as the read default `"not_started"`
and a missing `completion_percentage` as `0`. -/
structure Phase where
  number : Int
  status : String
  completion_percentage : Int
  actual_effort : Option EffortVal
  steps : List Step
  dependencies : List Dep
  completion_notes : Option String
  deriving DecidableEq, Repr

/-- The derived `phase_index` object written by `update_phase_index`. -/
structure PhaseIndex where
  total : Nat
  current_in_progress : Option Int
  completed : List Int
  blocked : List Int
  not_started : List Int
  next_available : Option Int
  deriving DecidableEq, Repr

/-- The `metadata` group; a document without a `"metadata"` key is the
record with every field `none` (the script creates the dict on demand). -/
structure Metadata where
  last_updated : Option String
  completed_at : Option String
  status : Option String
  total_actual_effort : Option Dy
  deriving DecidableEq, Repr

/-- One `execution_history` entry as built by `add_execution_history`. -/
structure HistEntry where
  date : String
  context_file : String
  notes : String
  phases_completed : Option (List Int)
  phases_in_progress : Option (List Int)
  deriving DecidableEq, Repr

/-- A plan document, restricted to the parts the engine touches. -/
structure Doc where
  metadata : Metadata
  phases : List Phase
  execution_history : Option (List HistEntry)
  phase_index : Option PhaseIndex
  deriving DecidableEq, Repr

/-- The `sys.exit`-carrying failure modes of the script, keyed by the
`self.error(...)` call sites (and uncaught `ValueError`s). -/
inductive PyErr where
  | phaseRange (n : Int) (count : Nat)
  | phaseNotFound (n : Int)
  | stepRange (m n : Int) (count : Nat)
  | stepNotFound (m n : Int)
  | invalidStatus (s : String)
  | illegalTransition (cur nxt : String)
  | invalidCompletion (c : Int)
  | invalidEffort
  | valueError (s : String)
  deriving DecidableEq, Repr

instance {ε α : Type _} [DecidableEq ε] [DecidableEq α] : DecidableEq (Except ε α) := fun x y =>
  match x, y with
  | .error a, .error b =>
    if h : a = b then isTrue (by rw [h]) else isFalse (fun hh => h (by injection hh))
  | .ok a, .ok b =>
    if h : a = b then isTrue (by rw [h]) else isFalse (fun hh => h (by injection hh))
  | .error _, .ok _ => isFalse (fun hh => Except.noConfusion hh)
  | .ok _, .error _ => isFalse (fun hh => Except.noConfusion hh)

/-- `PlanUpdater.validate_phase_number` (the range check is against the
length of the phases array). -/
def validatePhaseNumber (ps : List Phase) (n : Int) : Except PyErr Unit :=
  if n < 1 ∨ n > (ps.length : Int) then .error (.phaseRange n ps.length) else .ok ()

/-- `PlanUpdater.get_phase`: first phase whose `number` field equals `n`. -/
def getPhase (ps : List Phase) (n : Int) : Except PyErr Phase :=
  match ps.find? (fun p => p.number == n) with
  | some p => .ok p
  | none => .error (.phaseNotFound n)

/-- `PlanUpdater.validate_status`. -/
def validateStatus (s : String) : Except PyErr Unit :=
  if s ∈ VALID_STATUSES then .ok () else .error (.invalidStatus s)

/-- `PlanUpdater.validate_status_transition`: same status is a no-op,
`self.force` short-circuits before the table is consulted. -/
def validateStatusTransition (force : Bool) (cur nxt : String) : Except PyErr Unit :=
  if cur = nxt then .ok ()
  else if force then .ok ()
  else if nxt ∈ STATUS_TRANSITIONS cur then .ok ()
  else .error (.illegalTransition cur nxt)

/-- `PlanUpdater.validate_completion` (the `int` type test is carried by
the type of `c`). -/
def validateCompletion (c : Int) : Except PyErr Unit :=
  if 0 ≤ c ∧ c ≤ 100 then .ok () else .error (.invalidCompletion c)

/-- `PlanUpdater.validate_effort`: the argument arrives as a parsed float,
so only the positivity test can fail. -/
def validateEffort (e : Dy) : Except PyErr Unit :=
  if e.m ≤ 0 then .error .invalidEffort else .ok ()

/-- In-place mutation of the first phase whose `number` is `n` (the object
returned by `get_phase` and mutated by the script). -/
def updateFirst (ps : List Phase) (n : Int) (f : Phase → Phase) : List Phase :=
  match ps with
  | [] => []
  | p :: r => if p.number == n then f p :: r else p :: updateFirst r n f

/-- Field writes of `update_phase_status` after validation: set the status,
force completion to 100 / 0 on `completed` / `not_started`, record notes
when provided with `completed`. -/
def applyStatusFields (q : Phase) (s : String) (notes : Option String) : Phase :=
  let q1 : Phase := { q with status := s }
  if s = "completed" then
    { q1 with
      completion_percentage := 100
      completion_notes := match notes with | some t => some t | none => q.completion_notes }
  else if s = "not_started" then { q1 with completion_percentage := 0 }
  else q1

/-- `PlanUpdater.update_phase_status`. -/
def updatePhaseStatus (force : Bool) (ps : List Phase) (n : Int) (s : String)
    (notes : Option String) : Except PyErr (List Phase) :=
  match validatePhaseNumber ps n with
  | .error e => .error e
  | .ok _ =>
    match validateStatus s with
    | .error e => .error e
    | .ok _ =>
      match getPhase ps n with
      | .error e => .error e
      | .ok p =>
        match validateStatusTransition force p.status s with
        | .error e => .error e
        | .ok _ => .ok (updateFirst ps n (fun q => applyStatusFields q s notes))

/-- `PlanUpdater.update_phase_completion`. -/
def updatePhaseCompletion (ps : List Phase) (n : Int) (c : Int) :
    Except PyErr (List Phase) :=
  match validatePhaseNumber ps n with
  | .error e => .error e
  | .ok _ =>
    match validateCompletion c with
    | .error e => .error e
    | .ok _ =>
      match getPhase ps n with
      | .error e => .error e
      | .ok _ => .ok (updateFirst ps n (fun q => { q with completion_percentage := c }))

/-- `PlanUpdater.update_phase_effort`; the script stores `str(effort)`,
which round-trips to the same double. -/
def updatePhaseEffort (ps : List Phase) (n : Int) (e : Dy) :
    Except PyErr (List Phase) :=
  match validatePhaseNumber ps n with
  | .error err => .error err
  | .ok _ =>
    match validateEffort e with
    | .error err => .error err
    | .ok _ =>
      match getPhase ps n with
      | .error err => .error err
      | .ok _ => .ok (updateFirst ps n (fun q => { q with actual_effort := some (.val e) }))

/-! ### IEEE-754 binary64 arithmetic, modelled exactly on dyadic rationals -/

/-- Round `a / b` to the nearest integer, ties to even (`b > 0`). -/
def roundNEdiv (a b : Nat) : Nat :=
  let q := a / b
  let r := a % b
  if 2 * r < b then q
  else if b < 2 * r then q + 1
  else if q % 2 = 0 then q else q + 1

/-- Least `j` with `b ≤ x * 2^j`, by repeated doubling (`x > 0`). -/
def leastDoubling : Nat → Nat → Nat → Nat
  | 0, _, _ => 0
  | f + 1, x, b => if b ≤ x then 0 else leastDoubling f (2 * x) b + 1

/-- Fuel-driven `⌊log2 n⌋` (the fuel `n` itself always suffices). -/
def log2Fuel : Nat → Nat → Nat
  | 0, _ => 0
  | f + 1, n => if n ≤ 1 then 0 else log2Fuel f (n / 2) + 1

/-- `⌊log2 n⌋` for `n > 0`. -/
def log2F (n : Nat) : Nat := log2Fuel n n

/-- The unique `k` with `2^k ≤ a/b < 2^(k+1)` for `a, b > 0`. -/
def flog2q (a b : Nat) : Int :=
  if b ≤ a then Int.ofNat (log2F (a / b))
  else - Int.ofNat (leastDoubling b a b)

/-- Keep mantissas strictly below `2^53`, as binary64 hardware does. -/
def dyNorm (m : Nat) (e : Int) : Dy :=
  if m = 2 ^ 53 then ⟨Int.ofNat (2 ^ 52), e + 1⟩ else ⟨Int.ofNat m, e⟩

/-- Correctly rounded binary64 quotient of the nonnegative integers `a / b`
(`b > 0`): Python's true division of two ints. -/
def roundDiv (a b : Nat) : Dy :=
  if a = 0 then ⟨0, 0⟩
  else
    let k := flog2q a b
    let s : Int := 52 - k
    let m :=
      if 0 ≤ s then roundNEdiv (a * 2 ^ s.toNat) b
      else roundNEdiv a (b * 2 ^ (-s).toNat)
    dyNorm m (k - 52)

/-- Round the exact dyadic `M * 2^E` to 53 significant bits. -/
def roundMant (M : Int) (E : Int) : Dy :=
  let A := M.natAbs
  if A = 0 then ⟨0, 0⟩
  else
    let bits := log2F A + 1
    if bits ≤ 53 then ⟨M, E⟩
    else
      let t := bits - 53
      let d := dyNorm (roundNEdiv A (2 ^ t)) (E + t)
      if M < 0 then ⟨-d.m, d.e⟩ else d

/-- Binary64 product of a float and a nonnegative integer. -/
def pyMulDy (x : Dy) (n : Nat) : Dy :=
  roundMant (x.m * Int.ofNat n) x.e

/-- Binary64 sum of two floats. -/
def pyAddDy (x y : Dy) : Dy :=
  let e := min x.e y.e
  roundMant (x.m * 2 ^ (x.e - e).toNat + y.m * 2 ^ (y.e - e).toNat) e

/-- Python `int()` on a float: truncation toward zero. -/
def dyTrunc (x : Dy) : Int :=
  if 0 ≤ x.e then x.m * 2 ^ x.e.toNat
  else
    let d := 2 ^ (-x.e).toNat
    if x.m < 0 then - Int.ofNat (x.m.natAbs / d) else Int.ofNat (x.m.natAbs / d)

/-- `int((completed_steps / total_steps) * 100)` from `update_step_status`,
with the float steps carried out in exact binary64 arithmetic. -/
def pyPct (completed total : Nat) : Int :=
  dyTrunc (pyMulDy (roundDiv completed total) 100)

/-! ### Dependency parsing (`_check_dependencies_satisfied`) -/

/-- ASCII decimal digit test, as in Python `int()` grammar. -/
def isDig (c : Char) : Bool := '0' ≤ c ∧ c ≤ '9'

/-- Tail of a digit run: digits with single interior underscores. -/
def digitsTail : List Char → Bool
  | [] => true
  | '_' :: [] => false
  | '_' :: c :: r => isDig c && digitsTail r
  | c :: r => isDig c && digitsTail r

/-- A nonempty digit run, underscores only between digits. -/
def digitRun : List Char → Bool
  | [] => false
  | c :: r => isDig c && digitsTail r

/-- Numeric value of a digit run, skipping underscores. -/
def digitsVal (l : List Char) : Nat :=
  l.foldl (fun acc c => if c = '_' then acc else acc * 10 + (c.toNat - '0'.toNat)) 0

/-- Python `int(s)` on a string (ASCII fragment): strip whitespace, one
optional sign, then a digit run; `none` models a raised `ValueError`. -/
def pyInt? (s : String) : Option Int :=
  let t := (s.toList.dropWhile Char.isWhitespace).reverse.dropWhile Char.isWhitespace |>.reverse
  match t with
  | '+' :: r => if digitRun r then some (Int.ofNat (digitsVal r)) else none
  | '-' :: r => if digitRun r then some (-(Int.ofNat (digitsVal r))) else none
  | r => if digitRun r then some (Int.ofNat (digitsVal r)) else none

/-- List-level prefix test (`str.startswith`). -/
def isPrefixList : List Char → List Char → Bool
  | [], _ => true
  | _ :: _, [] => false
  | a :: as, b :: bs => a == b && isPrefixList as bs

/-- `dep.lower().startswith("phase ")`. -/
def phasePrefixed (s : String) : Bool :=
  isPrefixList "phase ".toList (s.toList.map Char.toLower)

/-- `str.split()` (no argument): whitespace-run-separated tokens. -/
def splitWsAux : List Char → List Char → List (List Char)
  | [], cur => if cur.isEmpty then [] else [cur.reverse]
  | c :: r, cur =>
    if c.isWhitespace then
      if cur.isEmpty then splitWsAux r [] else cur.reverse :: splitWsAux r []
    else splitWsAux r (c :: cur)

/-- `dep.split()[-1]`: last whitespace-separated token. -/
def lastToken (s : String) : String :=
  match (splitWsAux s.toList []).getLast? with
  | some t => ⟨t⟩
  | none => ""

/-- Parsing of one dependency entry: `some n` a phase reference, `none` a
silently skipped entry, `.error` an uncaught `ValueError` (the
`int(dep.split()[-1])` call of the `"phase "`-prefixed branch is not
guarded by a `try`). -/
def parseDep : Dep → Except PyErr (Option Int)
  | .int n => .ok (some n)
  | .str s =>
    if phasePrefixed s then
      match pyInt? (lastToken s) with
      | some k => .ok (some k)
      | none => .error (.valueError (lastToken s))
    else
      match pyInt? s with
      | some k => .ok (some k)
      | none => .ok none

/-- Loop body of `_check_dependencies_satisfied`, accumulating the
`blocking` list as (phase number, displayed status) pairs (the script
renders each as the string `"Phase N (status)"`). -/
def checkDepsGo (ps : List Phase) : List Dep → List (Int × String) →
    Except PyErr (Bool × List (Int × String))
  | [], blocking => .ok (blocking.isEmpty, blocking)
  | dep :: rest, blocking =>
    match parseDep dep with
    | .error e => .error e
    | .ok none => checkDepsGo ps rest blocking
    | .ok (some dn) =>
      match getPhase ps dn with
      | .error _ => checkDepsGo ps rest blocking
      | .ok dp =>
        if dp.status ≠ "completed" then
          checkDepsGo ps rest (blocking ++ [(dn, dp.status)])
        else checkDepsGo ps rest blocking

/-- `PlanUpdater._check_dependencies_satisfied`. -/
def checkDepsSatisfied (ps : List Phase) (phase : Phase) :
    Except PyErr (Bool × List (Int × String)) :=
  checkDepsGo ps phase.dependencies []

/-! ### Step updates -/

/-- `PlanUpdater.get_step` restricted to the lookup inside one phase. -/
def getStepIn (p : Phase) (m : Int) (n : Int) : Except PyErr Step :=
  match p.steps.find? (fun t => t.number == m) with
  | some t => .ok t
  | none => .error (.stepNotFound m n)

/-- `PlanUpdater.validate_step_number`: phase range check, lookup, then a
range check against the step array length. -/
def validateStepNumber (ps : List Phase) (n m : Int) : Except PyErr Unit :=
  match validatePhaseNumber ps n with
  | .error e => .error e
  | .ok _ =>
    match getPhase ps n with
    | .error e => .error e
    | .ok p =>
      if m < 1 ∨ m > (p.steps.length : Int) then .error (.stepRange m n p.steps.length)
      else .ok ()

/-- Mutation of the first step whose `number` is `m`. -/
def updateFirstStep (ts : List Step) (m : Int) (f : Step → Step) : List Step :=
  match ts with
  | [] => []
  | t :: r => if t.number == m then f t :: r else t :: updateFirstStep r m f

/-- `PlanUpdater.update_step_status`: validate, set the step status, then
recompute the owning phase's completion percentage from the step ratio via
float arithmetic, writing it only when it changed. -/
def updateStepStatus (force : Bool) (ps : List Phase) (n m : Int) (s : String) :
    Except PyErr (List Phase) :=
  match validateStepNumber ps n m with
  | .error e => .error e
  | .ok _ =>
    match validateStatus s with
    | .error e => .error e
    | .ok _ =>
      match getPhase ps n with
      | .error e => .error e
      | .ok p0 =>
        match getStepIn p0 m n with
        | .error e => .error e
        | .ok st =>
          match validateStatusTransition force st.status s with
          | .error e => .error e
          | .ok _ =>
            let ps1 := updateFirst ps n (fun q =>
              { q with steps := updateFirstStep q.steps m (fun t => { t with status := s }) })
            match getPhase ps1 n with
            | .error e => .error e
            | .ok p =>
              let total := p.steps.length
              let comp := (p.steps.filter (fun t => t.status == "completed")).length
              if 0 < total then
                let newC := pyPct comp total
                if newC ≠ p.completion_percentage then
                  .ok (updateFirst ps1 n (fun q => { q with completion_percentage := newC }))
                else .ok ps1
              else .ok ps1

/-! ### Scheduling index (`update_phase_index`) -/

/-- Accumulator of the `update_phase_index` loop. -/
structure IdxAcc where
  completed : List Int
  in_progress : List Int
  blocked : List Int
  not_started : List Int
  cur : Option Int
  next : Option Int
  deriving DecidableEq, Repr

/-- The loop of `update_phase_index`: statuses other than the three named
ones fall into the `else` (not-started) branch; the dependency check runs
only while `next_available` is still unset. -/
def idxGo (allPs : List Phase) : List Phase → IdxAcc → Except PyErr IdxAcc
  | [], acc => .ok acc
  | p :: rest, acc =>
    if p.status = "completed" then
      idxGo allPs rest { acc with completed := acc.completed ++ [p.number] }
    else if p.status = "in_progress" then
      idxGo allPs rest
        { acc with
          in_progress := acc.in_progress ++ [p.number]
          cur := match acc.cur with | none => some p.number | some c => some c }
    else if p.status = "blocked" then
      idxGo allPs rest { acc with blocked := acc.blocked ++ [p.number] }
    else
      match acc.next with
      | some v =>
        idxGo allPs rest { acc with not_started := acc.not_started ++ [p.number], next := some v }
      | none =>
        match checkDepsSatisfied allPs p with
        | .error e => .error e
        | .ok (sat, _) =>
          idxGo allPs rest
            { acc with
              not_started := acc.not_started ++ [p.number]
              next := if sat then some p.number else none }

/-- The `phase_index` value computed by `update_phase_index`. -/
def buildPhaseIndex (ps : List Phase) : Except PyErr PhaseIndex :=
  match idxGo ps ps ⟨[], [], [], [], none, none⟩ with
  | .error e => .error e
  | .ok acc =>
    .ok
      { total := ps.length
        current_in_progress := acc.cur
        completed := acc.completed
        blocked := acc.blocked
        not_started := acc.not_started
        next_available := acc.next }

/-- `PlanUpdater.update_phase_index` on a document. -/
def updatePhaseIndex (doc : Doc) : Except PyErr Doc :=
  match buildPhaseIndex doc.phases with
  | .error e => .error e
  | .ok idx => .ok { doc with phase_index := some idx }

/-! ### Quick workflow operations -/

/-- Loop of `start_next_phase` after the in-progress guard: first
`not_started` phase with satisfied dependencies becomes `in_progress`. -/
def startNextGo (allPs : List Phase) : List Phase → Except PyErr (Bool × List Phase)
  | [] => .ok (false, [])
  | p :: rest =>
    if p.status = "not_started" then
      match checkDepsSatisfied allPs p with
      | .error e => .error e
      | .ok (sat, _) =>
        if sat then .ok (true, { p with status := "in_progress" } :: rest)
        else
          match startNextGo allPs rest with
          | .error e => .error e
          | .ok (b, rest') => .ok (b, p :: rest')
    else
      match startNextGo allPs rest with
      | .error e => .error e
      | .ok (b, rest') => .ok (b, p :: rest')

/-- `PlanUpdater.start_next_phase`.  The method never reads `self.force`;
the unused parameter records that. -/
def startNextPhase (_force : Bool) (ps : List Phase) : Except PyErr (Bool × List Phase) :=
  if ps.any (fun p => p.status == "in_progress") then .ok (false, ps)
  else startNextGo ps ps

/-- `PlanUpdater.complete_current_phase`: first `in_progress` phase becomes
`completed` at 100%, with optional notes and effort recorded. -/
def completeCurrentPhase (ps : List Phase) (notes : Option String) (effort : Option Dy) :
    Bool × List Phase :=
  match ps with
  | [] => (false, [])
  | p :: rest =>
    if p.status = "in_progress" then
      (true,
        { p with
          status := "completed"
          completion_percentage := 100
          completion_notes := match notes with | some t => some t | none => p.completion_notes
          actual_effort := match effort with | some e => some (.val e) | none => p.actual_effort }
          :: rest)
    else
      let (b, rest') := completeCurrentPhase rest notes effort
      (b, p :: rest')

/-- `PlanUpdater.add_execution_history` (the context file is resolved on
the filesystem; its existence is assumed here, its name recorded). -/
def addExecutionHistory (doc : Doc) (histDate contextName notes : String) : Doc :=
  let phases := doc.phases
  let comp := (phases.filter (fun p => p.status == "completed")).map (fun p => p.number)
  let inprog := (phases.filter (fun p => p.status == "in_progress")).map (fun p => p.number)
  let entry : HistEntry :=
    { date := histDate
      context_file := contextName
      notes := notes
      phases_completed := if comp.isEmpty then none else some comp
      phases_in_progress := if inprog.isEmpty then none else some inprog }
  { doc with execution_history := some ((doc.execution_history.getD []) ++ [entry]) }

/-! ### Persistence, archiving and the `main` mutation flow -/

/-- `total_effort` accumulation in `check_and_archive_if_complete`:
`float(phase.get("actual_effort", 0))` summed with binary64 addition,
skipping values `float()` rejects. -/
def sumEfforts (ps : List Phase) : Dy :=
  ps.foldl
    (fun t p =>
      match p.actual_effort with
      | none => pyAddDy t ⟨0, 0⟩
      | some (.val d) => pyAddDy t d
      | some .bad => t)
    ⟨0, 0⟩

/-- Completion metadata stamped by `check_and_archive_if_complete`;
`total_actual_effort` is written only when the sum is positive. -/
def archiveStamp (doc : Doc) (now : String) : Doc :=
  let total := sumEfforts doc.phases
  { doc with
    metadata :=
      { doc.metadata with
        completed_at := some now
        status := some "completed"
        total_actual_effort :=
          if 0 < total.m then some total else doc.metadata.total_actual_effort } }

/-- `PlanUpdater.write_plan` on the document value: stamp
`metadata.last_updated`, recompute the phase index, then (in the script)
dump to a temp file and atomically rename. -/
def writePlanDoc (doc : Doc) (now : String) : Except PyErr Doc :=
  updatePhaseIndex { doc with metadata := { doc.metadata with last_updated := some now } }

/-- On-disk state: the plan at its original path, the archived copy in
`Completed/`, and the daily backup in `.plan-backups/`. -/
structure Disk where
  planFile : Option Doc
  completedFile : Option Doc
  backupFile : Option Doc
  deriving DecidableEq, Repr

/-- One mutating invocation of the command surface, as dispatched by
`main` (lines 858-886 of the script). -/
inductive Op where
  | startNext
  | completeCurrent (notes : Option String) (effort : Option Dy)
  | phaseOps (n : Int) (status : Option String) (notes : Option String)
      (completion : Option Int) (effort : Option Dy)
  | stepOp (n m : Int) (status : String)
  | addHistory (contextName : String) (notes : String)

/-- Result of the mutation block of `main` before persistence: either the
updated document, or an early `sys.exit(1)` (a quick workflow command
reporting `False`), or an error exit. -/
inductive OpResult where
  | proceed (d : Doc)
  | earlyFail
  deriving DecidableEq, Repr

/-- The mutation block of `main`: quick workflow commands first, then the
`--phase` block applying status, completion and effort in that order
(`if args.phase:` is false for `n = 0`, skipping the block), then history. -/
def applyOp (force : Bool) (op : Op) (doc : Doc) (histDate : String) :
    Except PyErr OpResult :=
  match op with
  | .startNext =>
    match startNextPhase force doc.phases with
    | .error e => .error e
    | .ok (true, ps') => .ok (.proceed { doc with phases := ps' })
    | .ok (false, _) => .ok .earlyFail
  | .completeCurrent notes effort =>
    match completeCurrentPhase doc.phases notes effort with
    | (true, ps') => .ok (.proceed { doc with phases := ps' })
    | (false, _) => .ok .earlyFail
  | .phaseOps n status notes completion effort =>
    if n = 0 then .ok (.proceed doc)
    else
      match (match status with
             | some s => updatePhaseStatus force doc.phases n s notes
             | none => .ok doc.phases) with
      | .error e => .error e
      | .ok ps1 =>
        match (match completion with
               | some c => updatePhaseCompletion ps1 n c
               | none => .ok ps1) with
        | .error e => .error e
        | .ok ps2 =>
          match (match effort with
                 | some e => updatePhaseEffort ps2 n e
                 | none => .ok ps2) with
          | .error e => .error e
          | .ok ps3 => .ok (.proceed { doc with phases := ps3 })
  | .stepOp n m status =>
    match updateStepStatus force doc.phases n m status with
    | .error e => .error e
    | .ok ps' => .ok (.proceed { doc with phases := ps' })
  | .addHistory contextName notes =>
    .ok (.proceed (addExecutionHistory doc histDate contextName notes))

/-- Observable outcome of one mutating invocation of `main`. -/
structure MainOutcome where
  disk : Disk
  exitCode : Nat
  validationRan : Bool
  deriving DecidableEq, Repr

/-- The mutating flow of `main` (lines 851-915): daily backup, mutation,
`check_and_archive_if_complete` (which exits 0 without validation when it
archives), otherwise `write_plan` followed by the validation hook whose
exit code is the parameter `valExit`.  On `valExit = 2` the script calls
`self.error(..., exit_code=0)`, which `sys.exit(0)`s before the
`restore_backup()` on the next line can run; the on-disk document stays
the freshly written one. -/
def runMain (force noBackup : Bool) (op : Op) (valExit : Nat) (disk : Disk)
    (now histDate : String) : MainOutcome :=
  match disk.planFile with
  | none => { disk := disk, exitCode := 2, validationRan := false }
  | some doc =>
    let disk1 : Disk :=
      if noBackup then disk
      else { disk with backupFile := some (disk.backupFile.getD doc) }
    match applyOp force op doc histDate with
    | .error _ => { disk := disk1, exitCode := 2, validationRan := false }
    | .ok .earlyFail => { disk := disk1, exitCode := 1, validationRan := false }
    | .ok (.proceed d) =>
      if ¬ d.phases.isEmpty ∧ d.phases.all (fun p => p.status == "completed") then
        match writePlanDoc (archiveStamp d now) now with
        | .error _ => { disk := disk1, exitCode := 2, validationRan := false }
        | .ok w =>
          { disk := { disk1 with planFile := none, completedFile := some w }
            exitCode := 0
            validationRan := false }
      else
        match writePlanDoc d now with
        | .error _ => { disk := disk1, exitCode := 2, validationRan := false }
        | .ok w =>
          let disk2 : Disk := { disk1 with planFile := some w }
          if valExit = 2 then { disk := disk2, exitCode := 0, validationRan := true }
          else if valExit = 1 then { disk := disk2, exitCode := 1, validationRan := true }
          else { disk := disk2, exitCode := 0, validationRan := true }

/-! ### Claim-side (specification-worded) definitions -/

/-- The invariant of §3 of the specification, phrased on one phase:
`status == completed ⇒ completion == 100` and
`status == not_started ⇒ completion == 0`. -/
def phaseInvariantB (p : Phase) : Bool :=
  (p.status != "completed" || p.completion_percentage == 100) &&
  (p.status != "not_started" || p.completion_percentage == 0)

/-- The phase invariant for every phase of a document. -/
def invariantsHoldB (ps : List Phase) : Bool := ps.all phaseInvariantB

/-- Claim C4's wording of dependency satisfaction: every parseable
reference must resolve to a phase with status `completed` (resolution is
the first phase carrying that number, as `get_phase` does). -/
def claimDepOk (ps : List Phase) (dep : Dep) : Bool :=
  match parseDep dep with
  | .ok none => true
  | .error _ => true
  | .ok (some k) =>
    match ps.find? (fun q => q.number == k) with
    | some q => q.status == "completed"
    | none => false

/-- Claim C4's `next_available`: first `not_started` phase, in declaration
order, whose every parseable dependency resolves to a completed phase. -/
def claimNextAvailable (ps : List Phase) : Option Int :=
  (ps.find? (fun p => p.status == "not_started" && p.dependencies.all (claimDepOk ps))).map
    (fun p => p.number)

/-- Amended dependency satisfaction, matching the code: a parseable
reference that resolves to no existing phase is skipped, not a failure. -/
def depSkipOk (ps : List Phase) (dep : Dep) : Bool :=
  match parseDep dep with
  | .ok none => true
  | .error _ => false
  | .ok (some k) =>
    match ps.find? (fun q => q.number == k) with
    | some q => q.status == "completed"
    | none => true

/-- Amended `next_available`: first `not_started` phase whose every
parseable dependency that resolves to an existing phase resolves to a
completed one. -/
def nextAvailSpec (ps : List Phase) : Option Int :=
  (ps.find? (fun p => p.status == "not_started" && p.dependencies.all (depSkipOk ps))).map
    (fun p => p.number)

/-! ### Helper lemmas -/

theorem validatePhaseNumber_ok_iff {ps : List Phase} {n : Int} :
    validatePhaseNumber ps n = .ok () ↔ 1 ≤ n ∧ n ≤ (ps.length : Int) := by
  unfold validatePhaseNumber
  split
  · rename_i h
    exact iff_of_false (by simp) (by omega)
  · rename_i h
    exact iff_of_true rfl (by omega)

theorem getPhase_ok_mem {ps : List Phase} {n : Int} {p : Phase}
    (h : getPhase ps n = .ok p) : p ∈ ps ∧ p.number = n := by
  unfold getPhase at h
  split at h
  · rename_i q hf
    obtain rfl : q = p := by injection h
    exact ⟨List.mem_of_find?_eq_some hf, by simpa using List.find?_some hf⟩
  · simp at h

theorem getPhase_eq_notFound {ps : List Phase} {n : Int}
    (h : ∀ p ∈ ps, p.number ≠ n) : getPhase ps n = .error (.phaseNotFound n) := by
  have hf : ps.find? (fun p => p.number == n) = none :=
    List.find?_eq_none.mpr (fun p hp => by simpa using h p hp)
  unfold getPhase
  rw [hf]

theorem validateStatus_ok_mem {s : String} (h : validateStatus s = .ok ()) :
    s ∈ VALID_STATUSES := by
  unfold validateStatus at h
  split at h
  · assumption
  · simp at h

theorem mem_updateFirst {ps : List Phase} {n : Int} {f : Phase → Phase} {q : Phase}
    (h : q ∈ updateFirst ps n f) : q ∈ ps ∨ ∃ p ∈ ps, q = f p := by
  induction ps with
  | nil => simp [updateFirst] at h
  | cons p r ih =>
    unfold updateFirst at h
    split at h
    · rcases List.mem_cons.mp h with rfl | hr
      · exact Or.inr ⟨p, List.mem_cons_self p r, rfl⟩
      · exact Or.inl (List.mem_cons_of_mem _ hr)
    · rcases List.mem_cons.mp h with rfl | hr
      · exact Or.inl (List.mem_cons_self q r)
      · rcases ih hr with h1 | ⟨p', hp', h2⟩
        · exact Or.inl (List.mem_cons_of_mem _ h1)
        · exact Or.inr ⟨p', List.mem_cons_of_mem _ hp', h2⟩

theorem applyStatusFields_invariant (q : Phase) (s : String) (notes : Option String) :
    phaseInvariantB (applyStatusFields q s notes) = true := by
  unfold applyStatusFields phaseInvariantB
  by_cases h1 : s = "completed"
  · subst h1; simp
  · by_cases h2 : s = "not_started"
    · subst h2; simp
    · simp [h1, h2]

/-! ### Claim C2 -/

/-- A completed phase at 100%, satisfying the invariants. -/
def c2Phase : Phase := ⟨1, "completed", 100, none, [], [], none⟩

/-- The same phase after `--completion 50`: still `completed`, at 50%. -/
def c2PhaseAfter : Phase := ⟨1, "completed", 50, none, [], [], none⟩

/-- C2 counterexample: `update_phase_completion` applied to a `completed`
phase succeeds with an arbitrary percentage and breaks the invariant
`status == completed ⇒ completion == 100`, so not every mutating operation
preserves the phase invariants. -/
theorem c2_completion_setter_breaks_invariant :
    invariantsHoldB [c2Phase] = true ∧
    updatePhaseCompletion [c2Phase] 1 50 = .ok [c2PhaseAfter] ∧
    invariantsHoldB [c2PhaseAfter] = false := by
  refine ⟨by decide, by decide, by decide⟩

/-- C2 amended: `update_phase_status` (the status setter, which forces
completion to 100 on `completed` and 0 on `not_started`) preserves the
phase invariants whenever they held beforehand; the `--completion` setter
does not. -/
theorem c2_status_setter_preserves_invariants
    (force : Bool) (ps : List Phase) (n : Int) (s : String) (notes : Option String)
    (ps' : List Phase) (hinv : invariantsHoldB ps = true)
    (h : updatePhaseStatus force ps n s notes = .ok ps') :
    invariantsHoldB ps' = true := by
  unfold updatePhaseStatus at h
  split at h
  · simp at h
  · split at h
    · simp at h
    · split at h
      · simp at h
      · split at h
        · simp at h
        · obtain rfl : updateFirst ps n (fun q => applyStatusFields q s notes) = ps' := by
            injection h
          rw [invariantsHoldB, List.all_eq_true]
          intro q hq
          rcases mem_updateFirst hq with hm | ⟨p', hp', rfl⟩
          · exact List.all_eq_true.mp hinv q hm
          · exact applyStatusFields_invariant p' s notes

/-- C2 witness: the amended theorem applied to a concrete plan. -/
theorem c2_status_setter_preserves_invariants_witness :
    invariantsHoldB [⟨1, "in_progress", 40, none, [], [], none⟩] = true ∧
    invariantsHoldB [⟨1, "completed", 100, none, [], [], none⟩] = true :=
  ⟨by decide,
    c2_status_setter_preserves_invariants false [⟨1, "in_progress", 40, none, [], [], none⟩]
      1 "completed" none [⟨1, "completed", 100, none, [], [], none⟩] (by decide) (by decide)⟩

/-! ### Claim C3 -/

/-- C3 counterexample: with `--force`, `validate_status_transition` (and
therefore `update_phase_status`) accepts `completed → not_started`: the
force check short-circuits before the transition table is consulted, so
`completed` is not terminal under force. -/
theorem c3_force_overrides_completed :
    validateStatusTransition true "completed" "not_started" = .ok () ∧
    updatePhaseStatus true [⟨1, "completed", 100, none, [], [], none⟩] 1 "not_started" none =
      .ok [⟨1, "not_started", 0, none, [], [], none⟩] := by
  refine ⟨by decide, by decide⟩

/-- C3 amended: without force, every transition out of `completed` to a
different status is rejected (its allowed set is empty); with force any
transition is accepted; `not_started → completed` is accepted without
force. -/
theorem c3_transition_policy :
    (∀ s : String, s ≠ "completed" →
      validateStatusTransition false "completed" s = .error (.illegalTransition "completed" s)) ∧
    (∀ cur nxt : String, validateStatusTransition true cur nxt = .ok ()) ∧
    validateStatusTransition false "not_started" "completed" = .ok () ∧
    STATUS_TRANSITIONS "completed" = [] := by
  refine ⟨?_, ?_, by decide, by decide⟩
  · intro s hs
    unfold validateStatusTransition
    rw [if_neg (fun h => hs h.symm)]
    simp [STATUS_TRANSITIONS]
  · intro cur nxt
    unfold validateStatusTransition
    split
    · rfl
    · rfl

/-- C3 witness: the amended policy at concrete statuses. -/
theorem c3_transition_policy_witness :
    validateStatusTransition false "completed" "in_progress" =
      .error (.illegalTransition "completed" "in_progress") ∧
    validateStatusTransition true "blocked" "not_started" = .ok () :=
  ⟨c3_transition_policy.1 "in_progress" (by decide), c3_transition_policy.2.1 "blocked" "not_started"⟩

/-! ### Claim C10 -/

/-- C10: a phase setter addressed by number `n` succeeds only when `n` is
within `1..len(phases)` (the range check is against the array length) and
some phase's `number` field equals `n`; out-of-range `n` always fails the
range check, and an in-range `n` matching no declared number passes the
range check but fails at lookup with the not-found error. -/
theorem c10_phase_addressing :
    (∀ (force : Bool) (ps : List Phase) (n : Int) (s : String) (notes : Option String)
        (r : List Phase), updatePhaseStatus force ps n s notes = .ok r →
        (1 ≤ n ∧ n ≤ (ps.length : Int)) ∧ ∃ p ∈ ps, p.number = n) ∧
    (∀ (ps : List Phase) (n c : Int) (r : List Phase), updatePhaseCompletion ps n c = .ok r →
        (1 ≤ n ∧ n ≤ (ps.length : Int)) ∧ ∃ p ∈ ps, p.number = n) ∧
    (∀ (ps : List Phase) (n : Int) (e : Dy) (r : List Phase),
        updatePhaseEffort ps n e = .ok r →
        (1 ≤ n ∧ n ≤ (ps.length : Int)) ∧ ∃ p ∈ ps, p.number = n) ∧
    (∀ (force : Bool) (ps : List Phase) (n : Int) (s : String) (notes : Option String)
        (c : Int) (e : Dy), (n < 1 ∨ (ps.length : Int) < n) →
        updatePhaseStatus force ps n s notes = .error (.phaseRange n ps.length) ∧
        updatePhaseCompletion ps n c = .error (.phaseRange n ps.length) ∧
        updatePhaseEffort ps n e = .error (.phaseRange n ps.length)) ∧
    (∀ (force : Bool) (ps : List Phase) (n : Int) (s : String) (notes : Option String)
        (c : Int) (e : Dy), 1 ≤ n → n ≤ (ps.length : Int) → (∀ p ∈ ps, p.number ≠ n) →
        (s ∈ VALID_STATUSES →
          updatePhaseStatus force ps n s notes = .error (.phaseNotFound n)) ∧
        (0 ≤ c → c ≤ 100 → updatePhaseCompletion ps n c = .error (.phaseNotFound n)) ∧
        (0 < e.m → updatePhaseEffort ps n e = .error (.phaseNotFound n))) := by
  have hrange : ∀ (ps : List Phase) (n : Int), (n < 1 ∨ (ps.length : Int) < n) →
      validatePhaseNumber ps n = .error (.phaseRange n ps.length) := by
    intro ps n h
    unfold validatePhaseNumber
    rw [if_pos (by omega)]
  have hrangeOk : ∀ (ps : List Phase) (n : Int), 1 ≤ n → n ≤ (ps.length : Int) →
      validatePhaseNumber ps n = .ok () := by
    intro ps n h1 h2
    exact validatePhaseNumber_ok_iff.mpr ⟨h1, h2⟩
  refine ⟨?_, ?_, ?_, ?_, ?_⟩
  · intro force ps n s notes r h
    unfold updatePhaseStatus at h
    split at h
    · simp at h
    · rename_i u hv
      split at h
      · simp at h
      · split at h
        · simp at h
        · rename_i p hp
          have hm := getPhase_ok_mem hp
          have hr : validatePhaseNumber ps n = .ok () := by
            cases u; exact hv
          exact ⟨validatePhaseNumber_ok_iff.mp hr, p, hm.1, hm.2⟩
  · intro ps n c r h
    unfold updatePhaseCompletion at h
    split at h
    · simp at h
    · rename_i u hv
      split at h
      · simp at h
      · split at h
        · simp at h
        · rename_i p hp
          have hm := getPhase_ok_mem hp
          have hr : validatePhaseNumber ps n = .ok () := by
            cases u; exact hv
          exact ⟨validatePhaseNumber_ok_iff.mp hr, p, hm.1, hm.2⟩
  · intro ps n e r h
    unfold updatePhaseEffort at h
    split at h
    · simp at h
    · rename_i u hv
      split at h
      · simp at h
      · split at h
        · simp at h
        · rename_i p hp
          have hm := getPhase_ok_mem hp
          have hr : validatePhaseNumber ps n = .ok () := by
            cases u; exact hv
          exact ⟨validatePhaseNumber_ok_iff.mp hr, p, hm.1, hm.2⟩
  · intro force ps n s notes c e h
    refine ⟨?_, ?_, ?_⟩
    · unfold updatePhaseStatus
      rw [hrange ps n h]
    · unfold updatePhaseCompletion
      rw [hrange ps n h]
    · unfold updatePhaseEffort
      rw [hrange ps n h]
  · intro force ps n s notes c e h1 h2 hnone
    refine ⟨?_, ?_, ?_⟩
    · intro hs
      unfold updatePhaseStatus
      rw [hrangeOk ps n h1 h2]
      have : validateStatus s = .ok () := by
        unfold validateStatus
        rw [if_pos hs]
      rw [this, getPhase_eq_notFound hnone]
    · intro hc1 hc2
      unfold updatePhaseCompletion
      rw [hrangeOk ps n h1 h2]
      have : validateCompletion c = .ok () := by
        unfold validateCompletion
        rw [if_pos ⟨hc1, hc2⟩]
      rw [this, getPhase_eq_notFound hnone]
    · intro he
      unfold updatePhaseEffort
      rw [hrangeOk ps n h1 h2]
      have : validateEffort e = .ok () := by
        unfold validateEffort
        rw [if_neg (by omega)]
      rw [this, getPhase_eq_notFound hnone]

/-- C10 witness: a plan whose two phases are numbered 5 and 6 — phase 5
is outside the range `1..2` and can never be addressed; `n = 1` passes the
range check but fails at lookup. -/
theorem c10_phase_addressing_witness :
    updatePhaseCompletion
        [⟨5, "not_started", 0, none, [], [], none⟩, ⟨6, "not_started", 0, none, [], [], none⟩]
        5 10 = .error (.phaseRange 5 2) ∧
    updatePhaseCompletion
        [⟨5, "not_started", 0, none, [], [], none⟩, ⟨6, "not_started", 0, none, [], [], none⟩]
        1 10 = .error (.phaseNotFound 1) :=
  ⟨(c10_phase_addressing.2.2.2.1 false
      [⟨5, "not_started", 0, none, [], [], none⟩, ⟨6, "not_started", 0, none, [], [], none⟩]
      5 "completed" none 10 ⟨1, 0⟩ (by decide)).2.1,
    ((c10_phase_addressing.2.2.2.2 false
      [⟨5, "not_started", 0, none, [], [], none⟩, ⟨6, "not_started", 0, none, [], [], none⟩]
      1 "completed" none 10 ⟨1, 0⟩ (by decide) (by decide) (by decide)).2.1 (by decide) (by decide))⟩

/-! ### Claim C5 -/

/-- A phase with 3 steps, one completed. -/
def c5Phase3 : Phase :=
  ⟨1, "in_progress", 33, none,
    [⟨1, "completed"⟩, ⟨2, "not_started"⟩, ⟨3, "not_started"⟩], [], none⟩

/-- A phase with 100 steps, the first 28 completed. -/
def c5Phase100 : Phase :=
  ⟨1, "in_progress", 0, none,
    (List.range 100).map (fun i => ⟨(i : Int) + 1, if i < 28 then "completed" else "not_started"⟩),
    [], none⟩

/-- The 100 steps after step 29 is completed. -/
def c5Steps100After : List Step :=
  (List.range 100).map (fun i => ⟨(i : Int) + 1, if i < 29 then "completed" else "not_started"⟩)

/-- C5 counterexample: completing step 29 of 100 stores completion `28`,
while truncating integer division `29 * 100 / 100` is `29`: the script
computes `int((completed/total)*100)` in binary64 float arithmetic, and
`(29/100)*100` rounds to `28.999999999999996`. -/
theorem c5_truncation_claim_fails :
    updateStepStatus false [c5Phase100] 1 29 "completed" =
      .ok [{ c5Phase100 with steps := c5Steps100After, completion_percentage := 28 }] ∧
    (29 * 100) / 100 = 29 := by
  refine ⟨by decide, by decide⟩

/-- C5 amended: the recomputed percentage is `int((completed/total)*100)`
evaluated in IEEE-754 binary64 arithmetic; it agrees with truncating
division at 2 of 3 steps (66) but not always — 29 of 100 steps yields 28,
not 29. -/
theorem c5_float_completion_recompute :
    pyPct 2 3 = 66 ∧ pyPct 29 100 = 28 ∧
    updateStepStatus false [c5Phase3] 1 2 "completed" =
      .ok [{ c5Phase3 with
              steps := [⟨1, "completed"⟩, ⟨2, "completed"⟩, ⟨3, "not_started"⟩]
              completion_percentage := 66 }] := by
  refine ⟨by decide, by decide, by decide⟩

/-! ### Claim C6 -/

/-- C6 counterexample: a dependency string with the `"phase "` prefix but a
non-numeric remainder makes `_check_dependencies_satisfied` raise
`ValueError` — the `int(dep.split()[-1])` call of that branch is not
guarded — so the check is not total and the reference is not silently
skipped. -/
theorem c6_phase_string_dependency_raises :
    checkDepsSatisfied [] ⟨1, "not_started", 0, none, [], [Dep.str "Phase abc"], none⟩ =
      .error (.valueError "abc") := by
  decide

theorem parseDep_ok_of (d : Dep)
    (h : ∀ s, d = Dep.str s → phasePrefixed s = true →
      (pyInt? (lastToken s)).isSome = true) :
    ∃ v, parseDep d = .ok v := by
  cases d with
  | int n => exact ⟨some n, rfl⟩
  | str s =>
    simp only [parseDep]
    by_cases hpre : phasePrefixed s = true
    · obtain ⟨k, hk⟩ := Option.isSome_iff_exists.mp (h s rfl hpre)
      rw [if_pos hpre, hk]
      exact ⟨some k, rfl⟩
    · rw [if_neg hpre]
      cases hpi : pyInt? s with
      | none => exact ⟨none, rfl⟩
      | some k => exact ⟨some k, rfl⟩

theorem checkDepsGo_total (ps : List Phase) (deps : List Dep)
    (hh : ∀ d ∈ deps, ∀ s, d = Dep.str s → phasePrefixed s = true →
      (pyInt? (lastToken s)).isSome = true) :
    ∀ acc, ∃ r, checkDepsGo ps deps acc = .ok r := by
  induction deps with
  | nil => exact fun acc => ⟨_, rfl⟩
  | cons d rest ih =>
    intro acc
    have hrest := fun d' hd' => hh d' (List.mem_cons_of_mem _ hd')
    obtain ⟨v, hv⟩ := parseDep_ok_of d (fun s hs => hh d (List.mem_cons_self d rest) s hs)
    cases v with
    | none =>
      obtain ⟨r, hr⟩ := ih hrest acc
      exact ⟨r, by simp [checkDepsGo, hv, hr]⟩
    | some dn =>
      cases hg : getPhase ps dn with
      | error e =>
        obtain ⟨r, hr⟩ := ih hrest acc
        exact ⟨r, by simp [checkDepsGo, hv, hg, hr]⟩
      | ok dp =>
        by_cases hst : dp.status = "completed"
        · obtain ⟨r, hr⟩ := ih hrest acc
          exact ⟨r, by simp [checkDepsGo, hv, hg, hst, hr]⟩
        · obtain ⟨r, hr⟩ := ih hrest (acc ++ [(dn, dp.status)])
          exact ⟨r, by simp [checkDepsGo, hv, hg, hst, hr]⟩

/-- C6 amended: dependency checking never raises for entries that are raw
integers or strings without the case-insensitive `"phase "` prefix
(unparseable ones among those are skipped), and also when every
`"phase "`-prefixed string has a numeric final token; only a
`"phase "`-prefixed string with a non-numeric final token raises. -/
theorem c6_dep_check_total_unless_bad_phase_string (ps : List Phase) (phase : Phase)
    (h : ∀ d ∈ phase.dependencies, ∀ s, d = Dep.str s →
      phasePrefixed s = true → (pyInt? (lastToken s)).isSome = true) :
    ∃ r, checkDepsSatisfied ps phase = .ok r :=
  checkDepsGo_total ps phase.dependencies h []

/-- C6 witness: a mixed dependency list — integer, `"Phase 2"`, and plain
free text — is checked without an error. -/
theorem c6_dep_check_total_witness :
    ∃ r, checkDepsSatisfied []
      ⟨1, "not_started", 0, none, [],
        [Dep.int 1, Dep.str "Phase 2", Dep.str "frontend work"], none⟩ = .ok r :=
  c6_dep_check_total_unless_bad_phase_string []
    ⟨1, "not_started", 0, none, [],
      [Dep.int 1, Dep.str "Phase 2", Dep.str "frontend work"], none⟩
    (by
      intro d hd s hds hpre
      simp only [List.mem_cons, List.not_mem_nil, or_false] at hd
      rcases hd with rfl | rfl | rfl
      · cases hds
      · obtain rfl : _ = s := by injection hds
        decide
      · obtain rfl : _ = s := by injection hds
        exact absurd hpre (by decide))

/-! ### Claim C4 -/

theorem getPhase_eq_ok_iff {ps : List Phase} {k : Int} {q : Phase} :
    getPhase ps k = .ok q ↔ ps.find? (fun p => p.number == k) = some q := by
  unfold getPhase
  split
  · rename_i p hf
    simp [hf]
  · rename_i hf
    simp [hf]

theorem getPhase_error_find_none {ps : List Phase} {k : Int} {e : PyErr}
    (h : getPhase ps k = .error e) : ps.find? (fun p => p.number == k) = none := by
  unfold getPhase at h
  split at h
  · simp at h
  · rename_i hf
    exact hf

theorem checkDepsGo_ok_sat (ps : List Phase) (deps : List Dep) :
    ∀ (acc bl : List (Int × String)) (sat : Bool),
      checkDepsGo ps deps acc = .ok (sat, bl) →
      sat = (acc.isEmpty && deps.all (depSkipOk ps)) := by
  induction deps with
  | nil =>
    intro acc bl sat h
    simp only [checkDepsGo, Except.ok.injEq, Prod.mk.injEq] at h
    obtain ⟨h1, h2⟩ := h
    simp [← h1]
  | cons d rest ih =>
    intro acc bl sat h
    simp only [checkDepsGo] at h
    cases hv : parseDep d with
    | error e => simp [hv] at h
    | ok v =>
      simp only [hv] at h
      cases v with
      | none =>
        have := ih acc bl sat h
        simp only [List.all_cons, depSkipOk, hv, Bool.true_and, this]
      | some k =>
        cases hg : getPhase ps k with
        | error e =>
          simp only [hg] at h
          have hf := getPhase_error_find_none hg
          have := ih acc bl sat h
          simp only [List.all_cons, depSkipOk, hv, hf, Bool.true_and, this]
        | ok dp =>
          simp only [hg] at h
          have hf := getPhase_eq_ok_iff.mp hg
          by_cases hst : dp.status = "completed"
          · rw [if_neg (fun hne => hne hst)] at h
            have := ih acc bl sat h
            simp only [List.all_cons, depSkipOk, hv, hf, this, hst]
            simp
          · rw [if_pos hst] at h
            have hthis := ih (acc ++ [(k, dp.status)]) bl sat h
            have hne : (acc ++ [(k, dp.status)]).isEmpty = false := by
              cases acc <;> rfl
            have hsat : sat = false := by simp [hthis, hne]
            have hdep : depSkipOk ps d = false := by
              simp [depSkipOk, hv, hf, hst]
            simp [hsat, List.all_cons, hdep]

theorem checkDepsSatisfied_ok_sat {ps : List Phase} {phase : Phase}
    {bl : List (Int × String)} {sat : Bool}
    (h : checkDepsSatisfied ps phase = .ok (sat, bl)) :
    sat = phase.dependencies.all (depSkipOk ps) := by
  have := checkDepsGo_ok_sat ps phase.dependencies [] bl sat h
  simpa using this

theorem idxGo_next_some (allPs : List Phase) (rest : List Phase) :
    ∀ (acc : IdxAcc) (v : Int), acc.next = some v →
      ∀ res, idxGo allPs rest acc = .ok res → res.next = some v := by
  induction rest with
  | nil =>
    intro acc v hv res h
    simp only [idxGo] at h
    obtain rfl : acc = res := by injection h
    exact hv
  | cons p r ih =>
    intro acc v hv res h
    simp only [idxGo] at h
    by_cases h1 : p.status = "completed"
    · rw [if_pos h1] at h
      exact ih _ v (by simpa using hv) res h
    · rw [if_neg h1] at h
      by_cases h2 : p.status = "in_progress"
      · rw [if_pos h2] at h
        exact ih _ v (by simpa using hv) res h
      · rw [if_neg h2] at h
        by_cases h3 : p.status = "blocked"
        · rw [if_pos h3] at h
          exact ih _ v (by simpa using hv) res h
        · rw [if_neg h3] at h
          simp only [hv] at h
          exact ih _ v (by simp) res h

theorem idxGo_next_none (allPs : List Phase) (rest : List Phase) :
    ∀ (acc : IdxAcc), acc.next = none →
      (∀ p ∈ rest, p.status ∈ VALID_STATUSES) →
      ∀ res, idxGo allPs rest acc = .ok res →
      res.next = (rest.find? (fun p => p.status == "not_started" &&
        p.dependencies.all (depSkipOk allPs))).map (fun p => p.number) := by
  induction rest with
  | nil =>
    intro acc hn _ res h
    simp only [idxGo] at h
    obtain rfl : acc = res := by injection h
    simpa using hn
  | cons p r ih =>
    intro acc hn hval res h
    have hvalr : ∀ q ∈ r, q.status ∈ VALID_STATUSES :=
      fun q hq => hval q (List.mem_cons_of_mem _ hq)
    have hvalp := hval p (List.mem_cons_self p r)
    simp only [idxGo] at h
    by_cases h1 : p.status = "completed"
    · rw [if_pos h1] at h
      rw [List.find?_cons_of_neg _ (by simp [h1])]
      exact ih _ (by simpa using hn) hvalr res h
    · rw [if_neg h1] at h
      by_cases h2 : p.status = "in_progress"
      · rw [if_pos h2] at h
        rw [List.find?_cons_of_neg _ (by simp [h2])]
        exact ih _ (by simpa using hn) hvalr res h
      · rw [if_neg h2] at h
        by_cases h3 : p.status = "blocked"
        · rw [if_pos h3] at h
          rw [List.find?_cons_of_neg _ (by simp [h3])]
          exact ih _ (by simpa using hn) hvalr res h
        · rw [if_neg h3] at h
          have h4 : p.status = "not_started" := by
            simp only [VALID_STATUSES, List.mem_cons, List.not_mem_nil, or_false] at hvalp
            rcases hvalp with h' | h' | h' | h'
            · exact h'
            · exact absurd h' h2
            · exact absurd h' h1
            · exact absurd h' h3
          simp only [hn] at h
          cases hc : checkDepsSatisfied allPs p with
          | error e => simp [hc] at h
          | ok pr =>
            obtain ⟨sat, bl⟩ := pr
            simp only [hc] at h
            have hsat : sat = p.dependencies.all (depSkipOk allPs) :=
              checkDepsSatisfied_ok_sat hc
            by_cases hs : sat = true
            · rw [List.find?_cons_of_pos _ (by simp [h4, ← hsat, hs])]
              have hres := idxGo_next_some allPs r _ p.number (by simp [hs]) res h
              simpa using hres
            · rw [List.find?_cons_of_neg _ (by
                simp only [Bool.and_eq_true, beq_iff_eq, not_and]
                intro _
                rw [← hsat]
                simpa using hs)]
              have hres := ih _ (by simp [hs]) hvalr res h
              exact hres

/-- C4 counterexample: a `not_started` phase whose sole dependency is the
parseable reference `2`, which resolves to no phase.  The engine skips the
dangling reference and schedules the phase (`next_available = 1`), while
the claim's reading — every parseable reference must resolve to a
completed phase — yields no eligible phase. -/
theorem c4_dangling_reference_schedules :
    buildPhaseIndex [⟨1, "not_started", 0, none, [], [Dep.int 2], none⟩] =
      .ok ⟨1, none, [], [], [1], some 1⟩ ∧
    claimNextAvailable [⟨1, "not_started", 0, none, [], [Dep.int 2], none⟩] = none := by
  refine ⟨by decide, by decide⟩

/-- C4 amended: for phases carrying valid statuses, whenever the index
recomputation succeeds, `next_available` is the number of the first
`not_started` phase, in declaration order, whose every parseable
dependency reference that resolves to an existing phase resolves to a
completed one — references that are unparseable or dangling are skipped —
and `none` when no such phase exists. -/
theorem c4_next_available_amended (doc doc' : Doc)
    (hval : ∀ p ∈ doc.phases, p.status ∈ VALID_STATUSES)
    (h : updatePhaseIndex doc = .ok doc') :
    ∃ idx, doc'.phase_index = some idx ∧
      idx.next_available = nextAvailSpec doc.phases := by
  unfold updatePhaseIndex at h
  split at h
  · simp at h
  · rename_i idx hb
    obtain rfl : _ = doc' := by injection h
    refine ⟨idx, rfl, ?_⟩
    unfold buildPhaseIndex at hb
    split at hb
    · simp at hb
    · rename_i acc hgo
      obtain rfl : _ = idx := by injection hb
      exact idxGo_next_none doc.phases doc.phases ⟨[], [], [], [], none, none⟩ rfl hval acc hgo

/-- The specification's own example: phases 1 completed, 2 depending on 1,
3 depending on 2. -/
def c4ExDoc : Doc :=
  ⟨⟨none, none, none, none⟩,
    [⟨1, "completed", 100, none, [], [], none⟩,
      ⟨2, "not_started", 0, none, [], [Dep.int 1], none⟩,
      ⟨3, "not_started", 0, none, [], [Dep.int 2], none⟩],
    none, none⟩

/-- C4 witness: the amended theorem at the specification's example, where
the next available phase is 2. -/
theorem c4_next_available_witness :
    (∃ idx, (⟨⟨some "T", none, none, none⟩, c4ExDoc.phases, none,
        some ⟨3, none, [1], [], [2, 3], some 2⟩⟩ : Doc).phase_index = some idx ∧
      idx.next_available = nextAvailSpec c4ExDoc.phases) ∧
    nextAvailSpec c4ExDoc.phases = some 2 :=
  ⟨c4_next_available_amended
      { c4ExDoc with metadata := ⟨some "T", none, none, none⟩ }
      ⟨⟨some "T", none, none, none⟩, c4ExDoc.phases, none,
        some ⟨3, none, [1], [], [2, 3], some 2⟩⟩
      (by decide) (by decide),
    by decide⟩

/-! ### Claim C9 -/

theorem startNextGo_false (allPs : List Phase) (ps : List Phase) :
    ∀ ps', startNextGo allPs ps = .ok (false, ps') →
      ps' = ps ∧ ∀ p ∈ ps, p.status = "not_started" →
        ∀ bl, checkDepsSatisfied allPs p ≠ .ok (true, bl) := by
  induction ps with
  | nil =>
    intro ps' h
    simp only [startNextGo, Except.ok.injEq, Prod.mk.injEq, true_and] at h
    exact ⟨h.symm, by simp⟩
  | cons p r ih =>
    intro ps' h
    simp only [startNextGo] at h
    by_cases h1 : p.status = "not_started"
    · rw [if_pos h1] at h
      cases hc : checkDepsSatisfied allPs p with
      | error e => simp [hc] at h
      | ok pr =>
        obtain ⟨sat, bl⟩ := pr
        simp only [hc] at h
        by_cases hs : sat = true
        · subst hs
          rw [if_pos rfl] at h
          simp at h
        · have hs' : sat = false := by revert hs; cases sat <;> simp
          subst hs'
          rw [if_neg (by simp)] at h
          cases hr : startNextGo allPs r with
          | error e => simp [hr] at h
          | ok pr2 =>
            obtain ⟨b, rest'⟩ := pr2
            simp only [hr, Except.ok.injEq, Prod.mk.injEq] at h
            obtain ⟨hb, hps⟩ := h
            subst hb
            obtain ⟨hr1, hr2⟩ := ih rest' hr
            subst hr1
            refine ⟨hps.symm, ?_⟩
            intro q hq hqs bl' hcon
            rcases List.mem_cons.mp hq with rfl | hql
            · rw [hc] at hcon
              simp at hcon
            · exact hr2 q hql hqs bl' hcon
    · rw [if_neg h1] at h
      cases hr : startNextGo allPs r with
      | error e => simp [hr] at h
      | ok pr2 =>
        obtain ⟨b, rest'⟩ := pr2
        simp only [hr, Except.ok.injEq, Prod.mk.injEq] at h
        obtain ⟨hb, hps⟩ := h
        subst hb
        obtain ⟨hr1, hr2⟩ := ih rest' hr
        subst hr1
        refine ⟨hps.symm, ?_⟩
        intro q hq hqs bl' hcon
        rcases List.mem_cons.mp hq with rfl | hql
        · exact h1 hqs
        · exact hr2 q hql hqs bl' hcon

theorem startNextGo_true (allPs : List Phase) (ps : List Phase) :
    ∀ ps', startNextGo allPs ps = .ok (true, ps') →
      ∃ l p r bl, ps = l ++ p :: r ∧
        ps' = l ++ ({ p with status := "in_progress" } :: r) ∧
        p.status = "not_started" ∧
        checkDepsSatisfied allPs p = .ok (true, bl) ∧
        ∀ q ∈ l, q.status = "not_started" →
          ∀ bl', checkDepsSatisfied allPs q ≠ .ok (true, bl') := by
  induction ps with
  | nil =>
    intro ps' h
    simp [startNextGo] at h
  | cons p r ih =>
    intro ps' h
    simp only [startNextGo] at h
    by_cases h1 : p.status = "not_started"
    · rw [if_pos h1] at h
      cases hc : checkDepsSatisfied allPs p with
      | error e => simp [hc] at h
      | ok pr =>
        obtain ⟨sat, bl⟩ := pr
        simp only [hc] at h
        by_cases hs : sat = true
        · subst hs
          rw [if_pos rfl] at h
          simp only [Except.ok.injEq, Prod.mk.injEq, true_and] at h
          exact ⟨[], p, r, bl, rfl, by simp [← h], h1, hc, by simp⟩
        · have hs' : sat = false := by revert hs; cases sat <;> simp
          subst hs'
          rw [if_neg (by simp)] at h
          cases hr : startNextGo allPs r with
          | error e => simp [hr] at h
          | ok pr2 =>
            obtain ⟨b, rest'⟩ := pr2
            simp only [hr, Except.ok.injEq, Prod.mk.injEq] at h
            obtain ⟨hb, hps⟩ := h
            subst hb
            obtain ⟨l, q, rr, bl', he1, he2, he3, he4, he5⟩ := ih rest' hr
            refine ⟨p :: l, q, rr, bl', by rw [he1]; exact (List.cons_append _ _ _).symm, by rw [← hps, he2]; exact (List.cons_append _ _ _).symm, he3, he4, ?_⟩
            intro x hx hxs bl'' hcon
            rcases List.mem_cons.mp hx with rfl | hxl
            · rw [hc] at hcon
              simp at hcon
            · exact he5 x hxl hxs bl'' hcon
    · rw [if_neg h1] at h
      cases hr : startNextGo allPs r with
      | error e => simp [hr] at h
      | ok pr2 =>
        obtain ⟨b, rest'⟩ := pr2
        simp only [hr, Except.ok.injEq, Prod.mk.injEq] at h
        obtain ⟨hb, hps⟩ := h
        subst hb
        obtain ⟨l, q, rr, bl', he1, he2, he3, he4, he5⟩ := ih rest' hr
        refine ⟨p :: l, q, rr, bl', by rw [he1]; exact (List.cons_append _ _ _).symm, by rw [← hps, he2]; exact (List.cons_append _ _ _).symm, he3, he4, ?_⟩
        intro x hx hxs bl'' hcon
        rcases List.mem_cons.mp hx with rfl | hxl
        · exact h1 hxs
        · exact he5 x hxl hxs bl'' hcon

/-- C9 counterexample: with a phase already `in_progress`,
`start_next_phase` returns failure and leaves the plan unchanged even
when force is supplied — the method never consults `self.force` — although
without the blocking phase the same eligible phase would have been
started. -/
theorem c9_force_does_not_bypass :
    startNextPhase true
        [⟨1, "in_progress", 50, none, [], [], none⟩,
          ⟨2, "not_started", 0, none, [], [], none⟩] =
      .ok (false,
        [⟨1, "in_progress", 50, none, [], [], none⟩,
          ⟨2, "not_started", 0, none, [], [], none⟩]) ∧
    startNextPhase true [⟨2, "not_started", 0, none, [], [], none⟩] =
      .ok (true, [⟨2, "in_progress", 0, none, [], [], none⟩]) := by
  refine ⟨by decide, by decide⟩

/-- C9 amended: `start_next_phase` fails and leaves every phase unchanged
whenever some phase is `in_progress`, regardless of the force flag; when
no phase is `in_progress`, success marks exactly the first `not_started`
phase with satisfied dependencies as `in_progress`, and failure means no
`not_started` phase has satisfied dependencies. -/
theorem c9_start_next_amended :
    (∀ (force : Bool) (ps : List Phase), (∃ p ∈ ps, p.status = "in_progress") →
      startNextPhase force ps = .ok (false, ps)) ∧
    (∀ (force : Bool) (ps ps' : List Phase), (∀ p ∈ ps, p.status ≠ "in_progress") →
      startNextPhase force ps = .ok (true, ps') →
      ∃ l p r bl, ps = l ++ p :: r ∧
        ps' = l ++ ({ p with status := "in_progress" } :: r) ∧
        p.status = "not_started" ∧
        checkDepsSatisfied ps p = .ok (true, bl) ∧
        ∀ q ∈ l, q.status = "not_started" →
          ∀ bl', checkDepsSatisfied ps q ≠ .ok (true, bl')) ∧
    (∀ (force : Bool) (ps ps' : List Phase), (∀ p ∈ ps, p.status ≠ "in_progress") →
      startNextPhase force ps = .ok (false, ps') →
      ps' = ps ∧ ∀ p ∈ ps, p.status = "not_started" →
        ∀ bl, checkDepsSatisfied ps p ≠ .ok (true, bl)) := by
  refine ⟨?_, ?_, ?_⟩
  · intro force ps hex
    obtain ⟨p, hp, hst⟩ := hex
    unfold startNextPhase
    rw [if_pos (List.any_eq_true.mpr ⟨p, hp, by simp [hst]⟩)]
  · intro force ps ps' hno h
    unfold startNextPhase at h
    rw [if_neg (by
      simp only [List.any_eq_true, beq_iff_eq, not_exists, not_and]
      exact fun p hp => hno p hp)] at h
    exact startNextGo_true ps ps ps' h
  · intro force ps ps' hno h
    unfold startNextPhase at h
    rw [if_neg (by
      simp only [List.any_eq_true, beq_iff_eq, not_exists, not_and]
      exact fun p hp => hno p hp)] at h
    exact startNextGo_false ps ps ps' h

/-- C9 witness: the amended theorem at a concrete plan with no phase in
progress — phase 2, whose dependency 1 is completed, is started. -/
theorem c9_start_next_witness :
    ∃ l p r bl,
      [(⟨1, "completed", 100, none, [], [], none⟩ : Phase),
        ⟨2, "not_started", 0, none, [], [Dep.int 1], none⟩] = l ++ p :: r ∧
      [(⟨1, "completed", 100, none, [], [], none⟩ : Phase),
        ⟨2, "in_progress", 0, none, [], [Dep.int 1], none⟩] =
        l ++ ({ p with status := "in_progress" } :: r) ∧
      p.status = "not_started" ∧
      checkDepsSatisfied
        [⟨1, "completed", 100, none, [], [], none⟩,
          ⟨2, "not_started", 0, none, [], [Dep.int 1], none⟩] p = .ok (true, bl) ∧
      ∀ q ∈ l, q.status = "not_started" →
        ∀ bl', checkDepsSatisfied
          [⟨1, "completed", 100, none, [], [], none⟩,
            ⟨2, "not_started", 0, none, [], [Dep.int 1], none⟩] q ≠ .ok (true, bl') :=
  c9_start_next_amended.2.1 false
    [⟨1, "completed", 100, none, [], [], none⟩,
      ⟨2, "not_started", 0, none, [], [Dep.int 1], none⟩]
    [⟨1, "completed", 100, none, [], [], none⟩,
      ⟨2, "in_progress", 0, none, [], [Dep.int 1], none⟩]
    (by decide) (by decide)

/-! ### Claim C1 -/

/-- A two-phase plan before any mutation. -/
def c1Doc : Doc :=
  ⟨⟨none, none, none, none⟩,
    [⟨1, "not_started", 0, none, [], [], none⟩, ⟨2, "not_started", 0, none, [], [], none⟩],
    none, none⟩

/-- The document the failed invocation leaves on disk: phase 1 mutated to
`in_progress`, metadata stamped, index recomputed. -/
def c1Written : Doc :=
  ⟨⟨some "T1", none, none, none⟩,
    [⟨1, "in_progress", 0, none, [], [], none⟩, ⟨2, "not_started", 0, none, [], [], none⟩],
    none, some ⟨2, some 1, [], [], [2], some 2⟩⟩

/-- C1: when the post-write validation pass reports a blocking error
(exit code 2), `main` calls `self.error(..., exit_code=0)`, which exits the
process before the `restore_backup()` on the following line can run: the
mutated document — not the pre-mutation bytes — remains on disk, the daily
backup is never copied back, and the process even exits 0. -/
theorem c1_validation_failure_keeps_mutated_doc :
    (runMain false false (.phaseOps 1 (some "in_progress") none none none) 2
        ⟨some c1Doc, none, none⟩ "T1" "D") =
      ⟨⟨some c1Written, none, some c1Doc⟩, 0, true⟩ ∧
    c1Written ≠ c1Doc := by
  refine ⟨by decide, by decide⟩

/-! ### Claim C7 -/

/-- An almost-finished plan with no recorded efforts. -/
def c7Doc : Doc :=
  ⟨⟨none, none, none, none⟩,
    [⟨1, "completed", 100, none, [], [], none⟩, ⟨2, "in_progress", 50, none, [], [], none⟩],
    none, none⟩

/-- The archived document: completion stamped, but no
`total_actual_effort` — the effort sum 0 fails the `> 0` guard. -/
def c7Archived : Doc :=
  ⟨⟨some "T1", some "T1", some "completed", none⟩,
    [⟨1, "completed", 100, none, [], [], none⟩, ⟨2, "completed", 100, none, [], [], none⟩],
    none, some ⟨2, none, [1, 2], [], [], none⟩⟩

/-- C7 counterexample: completing the last phase of a plan whose phases
carry no parseable `actual_effort` archives it with `completed_at` set but
without `metadata.total_actual_effort`: the script writes that field only
when the summed effort is strictly positive, so the claim fails exactly in
its "including when every actual_effort is missing" case. -/
theorem c7_archive_omits_zero_effort_total :
    (runMain false false (.completeCurrent none none) 0 ⟨some c7Doc, none, none⟩ "T1" "D") =
      ⟨⟨none, some c7Archived, some c7Doc⟩, 0, false⟩ ∧
    c7Archived.metadata.completed_at = some "T1" ∧
    c7Archived.metadata.total_actual_effort = none ∧
    sumEfforts
        [⟨1, "completed", 100, none, [], [], none⟩,
          ⟨2, "completed", 100, none, [], [], none⟩] = ⟨0, 0⟩ := by
  refine ⟨by decide, by decide, by decide, by decide⟩

/-- C7 amended: when a mutation leaves every phase `completed`, the
triggering save removes the document from its original path, places the
written document in the completed-set store with `completed_at` stamped,
and writes `total_actual_effort` equal to the float sum of the parseable
effort values only when that sum is positive, keeping the prior field
value (absent if previously absent) otherwise. -/
theorem c7_archive_amended
    (force noBackup : Bool) (op : Op) (valExit : Nat) (disk : Disk) (now histDate : String)
    (doc d w : Doc)
    (hplan : disk.planFile = some doc)
    (happ : applyOp force op doc histDate = .ok (.proceed d))
    (hne : d.phases.isEmpty = false)
    (hall : d.phases.all (fun p => p.status == "completed") = true)
    (hw : writePlanDoc (archiveStamp d now) now = .ok w) :
    (runMain force noBackup op valExit disk now histDate).disk.planFile = none ∧
    (runMain force noBackup op valExit disk now histDate).disk.completedFile = some w ∧
    (runMain force noBackup op valExit disk now histDate).exitCode = 0 ∧
    (runMain force noBackup op valExit disk now histDate).validationRan = false ∧
    w.metadata.completed_at = some now ∧
    w.metadata.total_actual_effort =
      (if 0 < (sumEfforts d.phases).m then some (sumEfforts d.phases)
        else d.metadata.total_actual_effort) := by
  have hcond : ¬ d.phases.isEmpty ∧ d.phases.all (fun p => p.status == "completed") = true :=
    ⟨by simp [hne], hall⟩
  have hw' := hw
  unfold writePlanDoc updatePhaseIndex at hw'
  split at hw'
  · simp at hw'
  · rename_i idx hb
    obtain rfl : _ = w := by injection hw'
    refine ⟨?_, ?_, ?_, ?_, rfl, rfl⟩
    all_goals
      simp only [runMain, hplan, happ]
      rw [if_pos hcond]
      simp only [hw]

/-- The effort-carrying plan used for the C7 witness. -/
def c7wDoc : Doc :=
  ⟨⟨none, none, none, none⟩,
    [⟨1, "completed", 100, some (.val ⟨9, 0⟩), [], [], none⟩,
      ⟨2, "in_progress", 50, none, [], [], none⟩],
    none, none⟩

/-- The same plan after `complete-current` with 5 hours of effort. -/
def c7wDone : Doc :=
  ⟨⟨none, none, none, none⟩,
    [⟨1, "completed", 100, some (.val ⟨9, 0⟩), [], [], none⟩,
      ⟨2, "completed", 100, some (.val ⟨5, 0⟩), [], [], none⟩],
    none, none⟩

/-- The archived result: effort total 9 + 5 = 14 recorded. -/
def c7wArchived : Doc :=
  ⟨⟨some "T1", some "T1", some "completed", some ⟨14, 0⟩⟩,
    [⟨1, "completed", 100, some (.val ⟨9, 0⟩), [], [], none⟩,
      ⟨2, "completed", 100, some (.val ⟨5, 0⟩), [], [], none⟩],
    none, some ⟨2, none, [1, 2], [], [], none⟩⟩

/-- C7 witness: the amended theorem on a concrete plan with efforts 9 and
5, archived with `total_actual_effort = 14`. -/
theorem c7_archive_amended_witness :
    (runMain false false (.completeCurrent none (some ⟨5, 0⟩)) 1
        ⟨some c7wDoc, none, none⟩ "T1" "D").disk.planFile = none ∧
    (runMain false false (.completeCurrent none (some ⟨5, 0⟩)) 1
        ⟨some c7wDoc, none, none⟩ "T1" "D").disk.completedFile = some c7wArchived ∧
    (runMain false false (.completeCurrent none (some ⟨5, 0⟩)) 1
        ⟨some c7wDoc, none, none⟩ "T1" "D").exitCode = 0 ∧
    (runMain false false (.completeCurrent none (some ⟨5, 0⟩)) 1
        ⟨some c7wDoc, none, none⟩ "T1" "D").validationRan = false ∧
    c7wArchived.metadata.completed_at = some "T1" ∧
    c7wArchived.metadata.total_actual_effort =
      (if 0 < (sumEfforts c7wDone.phases).m then some (sumEfforts c7wDone.phases)
        else c7wDone.metadata.total_actual_effort) :=
  c7_archive_amended false false (.completeCurrent none (some ⟨5, 0⟩)) 1
    ⟨some c7wDoc, none, none⟩ "T1" "D" c7wDoc c7wDone c7wArchived
    (by decide) (by decide) (by decide) (by decide) (by decide)

/-! ### Claim C8 -/

/-- A plan one step from completion, with an effort on phase 1. -/
def c8Doc : Doc :=
  ⟨⟨none, none, none, none⟩,
    [⟨1, "completed", 100, some (.val ⟨9, 0⟩), [], [], none⟩,
      ⟨2, "in_progress", 50, none, [], [], none⟩],
    none, none⟩

/-- Its archived form after `complete-current` records 5 hours. -/
def c8Archived : Doc :=
  ⟨⟨some "T1", some "T1", some "completed", some ⟨14, 0⟩⟩,
    [⟨1, "completed", 100, some (.val ⟨9, 0⟩), [], [], none⟩,
      ⟨2, "completed", 100, some (.val ⟨5, 0⟩), [], [], none⟩],
    none, some ⟨2, none, [1, 2], [], [], none⟩⟩

/-- C8 counterexample: the save that triggers archiving persists the
document into the completed store, exits 0, and never runs the post-write
validation pass — this persisted result escapes the validate-or-rollback
gate entirely, whatever the validator would have said. -/
theorem c8_archive_save_skips_validation :
    (runMain false false (.completeCurrent none (some ⟨5, 0⟩)) 2
        ⟨some c8Doc, none, none⟩ "T1" "D") =
      ⟨⟨none, some c8Archived, some c8Doc⟩, 0, false⟩ := by
  decide

/-- C8 amended: every mutating operation that persists without triggering
archiving ends by recomputing the scheduling index inside the atomic save
and then running the post-write validation pass (whose rollback branch is
unreachable — the failure path exits first, see C1); the archiving save
skips the validation pass entirely. -/
theorem c8_nonarchive_gate
    (force noBackup : Bool) (op : Op) (valExit : Nat) (disk : Disk) (now histDate : String)
    (doc d w : Doc)
    (hplan : disk.planFile = some doc)
    (happ : applyOp force op doc histDate = .ok (.proceed d))
    (hnall : ¬ (¬ d.phases.isEmpty ∧ d.phases.all (fun p => p.status == "completed") = true))
    (hw : writePlanDoc d now = .ok w) :
    (runMain force noBackup op valExit disk now histDate).validationRan = true ∧
    (runMain force noBackup op valExit disk now histDate).disk.planFile = some w ∧
    (∃ idx, w.phase_index = some idx ∧ buildPhaseIndex w.phases = .ok idx) ∧
    w.metadata.last_updated = some now := by
  have hw' := hw
  unfold writePlanDoc updatePhaseIndex at hw'
  split at hw'
  · simp at hw'
  · rename_i idx hb
    obtain rfl : _ = w := by injection hw'
    refine ⟨?_, ?_, ⟨idx, rfl, hb⟩, rfl⟩
    · simp only [runMain, hplan, happ]
      rw [if_neg hnall]
      simp only [hw]
      by_cases h2 : valExit = 2
      · rw [if_pos h2]
      · rw [if_neg h2]
        by_cases h1 : valExit = 1
        · rw [if_pos h1]
        · rw [if_neg h1]
    · simp only [runMain, hplan, happ]
      rw [if_neg hnall]
      simp only [hw]
      by_cases h2 : valExit = 2
      · rw [if_pos h2]
      · rw [if_neg h2]
        by_cases h1 : valExit = 1
        · rw [if_pos h1]
        · rw [if_neg h1]

/-- The plan used for the C8 witness. -/
def c8wDoc : Doc :=
  ⟨⟨none, none, none, none⟩,
    [⟨1, "not_started", 0, none, [], [], none⟩, ⟨2, "not_started", 0, none, [], [], none⟩],
    none, none⟩

/-- The C8 witness plan after starting phase 1 and saving. -/
def c8wWritten : Doc :=
  ⟨⟨some "T1", none, none, none⟩,
    [⟨1, "in_progress", 0, none, [], [], none⟩, ⟨2, "not_started", 0, none, [], [], none⟩],
    none, some ⟨2, some 1, [], [], [2], some 2⟩⟩

/-- C8 witness: the amended theorem on a concrete non-archiving mutation —
the persisted document carries a freshly recomputed index and validation
runs. -/
theorem c8_nonarchive_gate_witness :
    (runMain false false .startNext 0 ⟨some c8wDoc, none, none⟩ "T1" "D").validationRan = true ∧
    (runMain false false .startNext 0 ⟨some c8wDoc, none, none⟩ "T1" "D").disk.planFile =
      some c8wWritten ∧
    (∃ idx, c8wWritten.phase_index = some idx ∧
      buildPhaseIndex c8wWritten.phases = .ok idx) ∧
    c8wWritten.metadata.last_updated = some "T1" :=
  c8_nonarchive_gate false false .startNext 0 ⟨some c8wDoc, none, none⟩ "T1" "D"
    c8wDoc
    ⟨⟨none, none, none, none⟩,
      [⟨1, "in_progress", 0, none, [], [], none⟩, ⟨2, "not_started", 0, none, [], [], none⟩],
      none, none⟩
    c8wWritten
    (by decide) (by decide) (by decide) (by decide)

end PlanUpdate
